import Mathlib

/-!
Verification development for the experiment-orchestration core of the
political-polarization chat repository: the Gemini rate limiter
(`src/simulation/rate_limiter.py`), the conversation simulator
(`src/simulation/conversation_simulator.py`), the experiment controller
(`src/simulation/experiment_controller.py`) and the metrics analyzer
(`src/simulation/metrics_analyzer.py`).

The Python code is shallowly embedded:
* strings are Lean `String`s, and the Python substring / `str.count` /
  `str.split` / `str.lower` operations are re-implemented on `List Char`
  with structural recursion so that all definitions evaluate in the kernel;
* wall-clock timestamps (`datetime.now()`) are integers counting seconds,
  and `timedelta` comparisons become integer comparisons (one minute = 60,
  one day = 86400);
* the generative-text provider, the RNG (`random.random`, `random.choice`)
  and the per-attempt provider outcomes are oracles passed explicitly;
* Python float division is modelled with exact rational arithmetic.
-/

namespace PolChat

/-! ## Python string primitives on `List Char` -/

/-- Python `sub in s` (substring membership) on character lists:
`needle` occurs contiguously inside the list. -/
def isSubstrL (needle : List Char) : List Char → Bool
  | [] => needle.isEmpty
  | c :: t => needle.isPrefixOf (c :: t) || isSubstrL needle t

/-- Python `pat in hay` for `String`s. -/
def strContains (hay pat : String) : Bool := isSubstrL pat.data hay.data

/-- Scanner for Python `str.count`: non-overlapping occurrences, scanning left
to right and skipping the matched length after each hit.  The extra `skip`
argument keeps the recursion structural. -/
def countOccsGo (needle : List Char) : List Char → Nat → Nat
  | [], _ => 0
  | c :: t, 0 =>
      if needle.isPrefixOf (c :: t) then 1 + countOccsGo needle t (needle.length - 1)
      else countOccsGo needle t 0
  | _ :: t, k + 1 => countOccsGo needle t k

/-- Python `hay.count(pat)`: number of non-overlapping occurrences. -/
def pyCount (hay pat : String) : Nat :=
  if pat.data.isEmpty then hay.data.length + 1 else countOccsGo pat.data hay.data 0

/-- Body of Python `str.split(sep)` for a non-empty separator.  `fuel` bounds
the recursion (one unit per character consumed is enough). -/
def splitGo (sep : List Char) : Nat → List Char → List Char → List (List Char)
  | _, [], acc => [acc.reverse]
  | 0, s, acc => [acc.reverse ++ s]
  | fuel + 1, c :: t, acc =>
      if sep.isPrefixOf (c :: t) then acc.reverse :: splitGo sep fuel ((c :: t).drop sep.length) []
      else splitGo sep fuel t (c :: acc)

/-- Python `s.split(sep)` for a non-empty separator. -/
def pySplit (s sep : String) : List String :=
  (splitGo sep.data s.data.length s.data []).map (fun l => ⟨l⟩)

/-- Python `s.lower()` (the embedded messages are ASCII). -/
def lowerStr (s : String) : String := ⟨s.data.map Char.toLower⟩

/-- Value of a list of decimal digit characters, as Python `int` on the
joined digits. -/
def digitsToNat (ds : List Char) : Nat :=
  ds.foldl (fun a c => a * 10 + (c.toNat - 48)) 0

/-- Decimal digits of `n`, least significant last, with the usual fuel
argument for structural recursion.  `natReprGo (n+1) n` equals Python
`str(n)` as a character list. -/
def natReprGo : Nat → Nat → List Char
  | 0, _ => []
  | fuel + 1, n =>
      if n < 10 then [Char.ofNat (48 + n)]
      else natReprGo fuel (n / 10) ++ [Char.ofNat (48 + n % 10)]

/-- Python `str(n)` for a natural number. -/
def natStr (n : Nat) : String := ⟨natReprGo (n + 1) n⟩

/-- Python `str(w)` for an integer (f-string interpolation of `int` values). -/
def intStr (w : Int) : String :=
  if w < 0 then ⟨'-' :: (natStr (-w).toNat).data⟩ else natStr w.toNat

/-! ## Rate limiter (`GeminiRateLimiter`, src/simulation/rate_limiter.py)

State fields mirror the attributes set in `__init__`; `request_times` and
`token_usage` are the deques of logged request timestamps and token costs
(the `maxlen=100` retention bound only discards entries older than the last
100 and is irrelevant to the admission logic modelled here). -/

structure RLState where
  requests_per_minute : Nat
  requests_per_day : Nat
  tokens_per_minute : Nat
  request_times : List Int
  daily_request_count : Nat
  daily_reset_time : Int
  token_usage : List (Int × Nat)
deriving DecidableEq

/-- The `__init__` values: 10 requests/minute, 1500 requests/day,
4,000,000 tokens/minute, empty logs, daily reset anchored at `now`. -/
def initRL (now : Int) : RLState :=
  ⟨10, 1500, 4000000, [], 0, now, []⟩

/-- Lazy daily rollover at the top of `can_make_request`: if more than one
day passed since the last reset, zero the daily counter. -/
def dailyResetStep (s : RLState) (now : Int) : RLState :=
  if now - s.daily_reset_time > 86400 then
    { s with daily_request_count := 0, daily_reset_time := now }
  else s

/-- `[t for t in self.request_times if t > one_minute_ago]`. -/
def recentRequests (s : RLState) (now : Int) : List Int :=
  s.request_times.filter (fun t => t > now - 60)

/-- `sum(entry['tokens'] for entry in self.token_usage if entry['time'] > one_minute_ago)`. -/
def recentTokens (s : RLState) (now : Int) : Nat :=
  ((s.token_usage.filter (fun e => e.1 > now - 60)).map (fun e => e.2)).sum

/-- `GeminiRateLimiter.can_make_request`: returns the (possibly
daily-reset) state, the `allowed` flag and the message string.  The
`recent_requests[0]` access of the Python code is modelled with `headD 0`;
the list is non-empty in that branch whenever `requests_per_minute ≥ 1`. -/
def can_make_request (s : RLState) (now : Int) (estimated_tokens : Nat) :
    RLState × Bool × String :=
  let s1 := dailyResetStep s now
  if s1.daily_request_count ≥ s1.requests_per_day then
    (s1, false, "Daily limit reached (" ++ natStr s1.requests_per_day ++ " requests)")
  else
    let recent := recentRequests s1 now
    if recent.length ≥ s1.requests_per_minute then
      let w : Int := 60 - (now - recent.headD 0)
      (s1, false, "Rate limit: wait " ++ intStr w ++ " seconds")
    else if recentTokens s1 now + estimated_tokens > s1.tokens_per_minute then
      (s1, false, "Token limit would be exceeded (" ++
        natStr (recentTokens s1 now + estimated_tokens) ++ " > " ++
        natStr s1.tokens_per_minute ++ ")")
    else
      (s1, true, "OK")

/-- `int(''.join(filter(str.isdigit, message.split("wait")[1].split("seconds")[0])))`
with the bare-`except` fallback of 10 for a missing `[1]` element or an
empty digit string. -/
def extractWaitSeconds (msg : String) : Nat :=
  match pySplit msg "wait" with
  | _ :: after :: _ =>
      let seg := (pySplit after "seconds").headD ""
      let ds := seg.data.filter Char.isDigit
      if ds.isEmpty then 10 else digitsToNat ds
  | _ => 10

/-- Outcome of one iteration of the `while True` loop in `wait_if_needed`:
either the check passes and the call returns, or the loop sleeps and
re-checks, or the `raise Exception(...)` fires. -/
inductive WaitAction where
  | proceed : RLState → WaitAction
  | sleepFor : Nat → RLState → WaitAction
  | raiseErr : String → RLState → WaitAction
deriving DecidableEq

/-- One iteration of `GeminiRateLimiter.wait_if_needed`: run the check; on
success break; if `"wait" in message.lower()`, sleep the extracted seconds
plus the 1-second buffer and re-check; otherwise raise. -/
def wait_step (s : RLState) (now : Int) (estimated_tokens : Nat) : WaitAction :=
  let r := can_make_request s now estimated_tokens
  if r.2.1 then .proceed r.1
  else if strContains (lowerStr r.2.2) "wait" then
    .sleepFor (extractWaitSeconds r.2.2 + 1) r.1
  else
    .raiseErr ("Rate limit error: " ++ r.2.2) r.1

/-- `GeminiRateLimiter.record_request`: append the timestamp and the token
cost (deque `maxlen=100` drops the oldest entries beyond 100) and bump the
daily counter. -/
def record_request (s : RLState) (now : Int) (tokens_used : Nat) : RLState :=
  let times := s.request_times ++ [now]
  let usage := s.token_usage ++ [(now, tokens_used)]
  { s with
    request_times := if times.length > 100 then times.drop (times.length - 100) else times,
    token_usage := if usage.length > 100 then usage.drop (usage.length - 100) else usage,
    daily_request_count := s.daily_request_count + 1 }

/-! ## Conversation simulator (src/simulation/conversation_simulator.py) -/

/-- Turn roles: the agent side appends `"assistant"` turns, the subject side
`"user"` turns. -/
inductive Role where
  | assistant
  | user
deriving DecidableEq

/-- One conversation turn (`{"role": ..., "content": ..., "timestamp": ...}`;
the wall-clock timestamp string carries no logic and is omitted). -/
structure Turn where
  role : Role
  content : String
deriving DecidableEq

/-- The reason strings returned by `ConversationEndingManager.should_end`. -/
inductive Reason where
  | hard_limit
  | natural_ending
  | soft_ending
deriving DecidableEq

/-- The value stored in `metadata["ending_reason"]` by `simulate_conversation`:
`reason if 'reason' in locals() else "max_messages"`.  `none_reason` models the
Python `None` left in `reason` by a final `should_end` call that returned
`(False, None)`; `max_messages` is the fallback used when the loop body never
ran. -/
inductive EndingReason where
  | hard_limit
  | natural_ending
  | soft_ending
  | none_reason
  | max_messages
deriving DecidableEq

/-- The phase names of `ConversationEndingManager.ending_phases`. -/
inductive Phase where
  | active
  | pre_closure
  | soft_closure
  | closure
  | final
deriving DecidableEq

/-- `ConversationEndingManager.get_phase`: scan the ranges
`active [0,16), pre_closure [16,18), soft_closure [18,20), closure [20,22),
final [22,24)` in insertion order, with `"final"` as the fall-through. -/
def get_phase (message_count : Nat) : Phase :=
  if message_count < 16 then .active
  else if message_count < 18 then .pre_closure
  else if message_count < 20 then .soft_closure
  else if message_count < 22 then .closure
  else .final

/-- The closing-phrase lexicon of `should_end`. -/
def ending_phrases : List String :=
  ["תודה על השיחה", "היה מעניין", "נחמד שדיברנו",
   "אני צריך ללכת", "בוא נסיים", "נסכים שלא נסכים"]

/-- `any(phrase in last_msg for phrase in ending_phrases)`. -/
def msgHasEnding (content : String) : Bool :=
  ending_phrases.any (fun p => strContains content p)

/-- The `last_messages` check of `should_end`: non-emptiness guard plus the
lexicon scan of `last_messages[-1]['content']`. -/
def hasEndingSignal (last_messages : List Turn) : Bool :=
  match last_messages.getLast? with
  | some m => msgHasEnding m.content
  | none => false

/-- `ConversationEndingManager.should_end`.  `soft_draw` is the oracle value
of `random.random() < 0.3` for this call. -/
def should_end (message_count : Nat) (last_messages : List Turn) (soft_draw : Bool) :
    Bool × Option Reason :=
  if 24 ≤ message_count then (true, some .hard_limit)
  else if 18 ≤ message_count ∧ hasEndingSignal last_messages = true then
    (true, some .natural_ending)
  else if 20 ≤ message_count ∧ soft_draw = true then (true, some .soft_ending)
  else (false, none)

/-- Python `conversation[-2:]`. -/
def takeLast2 (l : List Turn) : List Turn := l.drop (l.length - 2)

/-- Oracle for the effectful inputs of `simulate_conversation`:
`opening` is `random.choice(AGENT_OPENINGS)`; `user_opening` is the
profile-derived `_generate_user_opening` result; `agentGen`/`userGen` are
the texts produced by `_generate_agent_response` / `_generate_user_response`
(retry/fallback already folded in — those calls always return a string);
`closing` is the `random.choice` of `_generate_user_closing`; `soft_draw i`
is the `random.random() < 0.3` draw available to the `i`-th loop
iteration's `should_end` call. -/
structure SimOracle where
  opening : String
  user_opening : String
  agentGen : List Turn → Phase → String
  userGen : List Turn → Phase → String
  closing : String
  soft_draw : Nat → Bool

/-- The agent turn appended at the top of the loop body:
`_generate_agent_response` is called with the current conversation and the
phase `get_phase(len(conversation))`. -/
def agentTurn (o : SimOracle) (conv : List Turn) : Turn :=
  ⟨.assistant, o.agentGen conv (get_phase conv.length)⟩

/-- The subject turn appended at the bottom of the loop body:
`_generate_user_response` receives the post-agent conversation `conv1` but
the phase computed from the pre-agent length. -/
def userTurn (o : SimOracle) (conv conv1 : List Turn) : Turn :=
  ⟨.user, o.userGen conv1 (get_phase conv.length)⟩

/-- The final subject acknowledgment turn (`_generate_user_closing`). -/
def closingTurn (o : SimOracle) : Turn := ⟨.user, o.closing⟩

/-- The `should_end` call of iteration `i`: message count and
`conversation[-2:]` are taken after the agent turn was appended. -/
def simStepEnd (o : SimOracle) (conv : List Turn) (i : Nat) : Bool × Option Reason :=
  should_end (conv ++ [agentTurn o conv]).length
    (takeLast2 (conv ++ [agentTurn o conv])) (o.soft_draw i)

/-- The `while len(conversation) < max_messages` loop of
`simulate_conversation`.  `last_reason` tracks the Python local `reason`:
`none` while `should_end` has never been called, `some r` after a call
returned reason `r`.  `fuel` bounds the recursion; `fuel = max_messages`
is always sufficient because every iteration appends at least one turn. -/
def simLoop (o : SimOracle) (max_messages : Nat) :
    Nat → List Turn → Option (Option Reason) → Nat → List Turn × Option (Option Reason)
  | 0, conv, last_reason, _ => (conv, last_reason)
  | fuel + 1, conv, last_reason, i =>
      if conv.length < max_messages then
        let conv1 := conv ++ [agentTurn o conv]
        let res := simStepEnd o conv i
        if res.1 then
          if res.2 ≠ some .hard_limit then
            (conv1 ++ [closingTurn o], some res.2)
          else (conv1, some res.2)
        else
          simLoop o max_messages fuel (conv1 ++ [userTurn o conv conv1])
            (some res.2) (i + 1)
      else (conv, last_reason)

/-- The conversation before the loop: the `random.choice(AGENT_OPENINGS)`
agent opening and the profile-derived user opening. -/
def initConv (o : SimOracle) : List Turn :=
  [⟨.assistant, o.opening⟩, ⟨.user, o.user_opening⟩]

/-- `ConversationSimulator.simulate_conversation`: agent opening, profile
user opening, then the driver loop; the returned ending reason is
`reason if 'reason' in locals() else "max_messages"`. -/
def simulate_conversation (o : SimOracle) (max_messages : Nat) :
    List Turn × EndingReason :=
  ((simLoop o max_messages max_messages (initConv o) none 0).1,
    match (simLoop o max_messages max_messages (initConv o) none 0).2 with
    | none => .max_messages
    | some none => .none_reason
    | some (some .hard_limit) => .hard_limit
    | some (some .natural_ending) => .natural_ending
    | some (some .soft_ending) => .soft_ending)

/-! ### Per-turn generation with retry (`_generate_agent_response`,
`_generate_user_response`) -/

/-- Outcome of one provider attempt, as observed by the `except` clause:
either `generate_content` returned text, or it raised.  For a raise,
`isQuota` is the value of `"429" in error_str and "RESOURCE_EXHAUSTED" in
error_str`, and `retryDelay` the optional capture of the
`'retryDelay': '<n>s'` regex of `_extract_retry_delay` over the error
payload (both functions of the external error string). -/
inductive Attempt where
  | success : String → Attempt
  | failure : Bool → Option Nat → Attempt
deriving DecidableEq

/-- `_extract_retry_delay`: the regex capture when present, else the
60-second default. -/
def extract_retry_delay (d : Option Nat) : Nat := d.getD 60

/-- `a` is a successful attempt. -/
def isSuccessA : Attempt → Bool
  | .success _ => true
  | .failure _ _ => false

/-- The `for attempt in range(max_retries)` retry loop shared by
`_generate_agent_response` and `_generate_user_response`, applied to the
list of per-attempt outcomes (one list element per attempt the loop may
consume).  Returns the produced text and the list of backoff sleeps
(`retry_delay + 2` each).  A success returns its text; a quota failure
before the last attempt sleeps and retries; a non-quota failure before the
last attempt retries without sleeping; any failure on the last attempt
returns the fallback. -/
def genRun (fallback : String) : List Attempt → String × List Nat
  | [] => (fallback, [])
  | [a] =>
      match a with
      | .success t => (t, [])
      | .failure _ _ => (fallback, [])
  | a :: rest =>
      match a with
      | .success t => (t, [])
      | .failure true d =>
          let r := genRun fallback rest
          (r.1, (extract_retry_delay d + 2) :: r.2)
      | .failure false _ => genRun fallback rest

/-- Role argument of `_get_fallback_response`. -/
inductive FbRole where
  | agent
  | user
deriving DecidableEq

/-- `_get_fallback_response`: the phase-keyed canned responses.  (The
dictionary `.get` default is unreachable because `get_phase` only produces
the five keyed phases.) -/
def get_fallback_response (phase : Phase) (role : FbRole) : String :=
  match role, phase with
  | .agent, .active => "אני מבין את העמדה שלך. זה באמת מצב מורכב."
  | .agent, .pre_closure => "נראה שאנחנו נוגעים בנקודות חשובות פה."
  | .agent, .soft_closure => "למרות הבדלי הדעות, אני מעריך את הפתיחות שלך."
  | .agent, .closure => "תודה על השיחה הכנה. זה חשוב שאנחנו מדברים."
  | .agent, .final => "היה חשוב לשמוע את הזווית שלך. תודה."
  | .user, .active => "זה מסובך. קשה לי עם כל המצב."
  | .user, .pre_closure => "כן, יש הרבה מה לחשוב עליו."
  | .user, .soft_closure => "אני מבין מאיפה אתה בא."
  | .user, .closure => "תודה על השיחה."
  | .user, .final => "היה מעניין."

/-- `_generate_agent_response` with `max_retries` attempts whose outcomes
are `attempts`: the retry loop with the agent's phase-appropriate canned
fallback. -/
def generate_agent_response (attempts : List Attempt) (phase : Phase) :
    String × List Nat :=
  genRun (get_fallback_response phase .agent) attempts

/-- `_generate_user_response`: same loop, but the last-attempt fallback is
`random.choice(typical_phrases)` when the profile has typical phrases
(modelled by the oracle index `pick`, reduced modulo the length), else the
user's canned response. -/
def generate_user_response (attempts : List Attempt) (typical_phrases : List String)
    (pick : Nat) (phase : Phase) : String × List Nat :=
  genRun
    (if typical_phrases.isEmpty then get_fallback_response phase .user
     else typical_phrases.getD (pick % typical_phrases.length) "")
    attempts

/-! ## Experiment controller (src/simulation/experiment_controller.py) -/

/-- What happened to one combination inside the `try` block of
`run_experiment`: `waitRaises` — `wait_if_needed` raised (the request was
never admitted); `simRaises` — `wait_if_needed` returned but the
simulation/save raised before `record_request`; `ok` — everything
succeeded. -/
inductive ComboOutcome where
  | waitRaises
  | simRaises
  | ok
deriving DecidableEq

/-- Event counters for one experiment run: requests admitted by the rate
limiter (`wait_if_needed` calls that returned), `record_request` calls,
entries appended to `successful` and to `failed`. -/
structure RunCounts where
  admitted : Nat
  recorded : Nat
  successful : Nat
  failed : Nat
deriving DecidableEq

/-- One iteration of the `for ... in combinations` loop, as the event
counters see it.  On `ok` the code reaches `record_request` exactly once
after appending the success entry; on any exception the `except` clause
appends a failure entry and `record_request` is never reached. -/
def stepCombo (c : RunCounts) : ComboOutcome → RunCounts
  | .waitRaises => { c with failed := c.failed + 1 }
  | .simRaises => { c with admitted := c.admitted + 1, failed := c.failed + 1 }
  | .ok =>
      { c with
        admitted := c.admitted + 1,
        recorded := c.recorded + 1,
        successful := c.successful + 1 }

/-- The whole `run_experiment` loop over the shuffled combination list,
projected onto the admission/recording counters. -/
def run_experiment_counts (outcomes : List ComboOutcome) : RunCounts :=
  outcomes.foldl stepCombo ⟨0, 0, 0, 0⟩

/-- One element of `results['successful']` as `validate_balance` reads it. -/
structure SuccessEntry where
  profile_id : String
  intervention : String
deriving DecidableEq

/-- `f"{result['profile_id'].split('_')[0]}_{result['intervention']}"`. -/
def cellKey (e : SuccessEntry) : String :=
  ((pySplit e.profile_id "_").headD "") ++ "_" ++ e.intervention

/-- The multiset of per-cell counts of `combination_counts` (one count per
distinct key occurring in the successful results; cells with zero
completed conversations contribute no key). -/
def cellCountValues (successful : List SuccessEntry) : List Nat :=
  ((successful.map cellKey).dedup).map (fun k => (successful.map cellKey).count k)

/-- `ExperimentController.validate_balance`: `is_balanced` is
`len(set(counts)) <= 2`, returned with the count values. -/
def validate_balance (successful : List SuccessEntry) : Bool × List Nat :=
  (decide ((cellCountValues successful).dedup.length ≤ 2), cellCountValues successful)

/-! ## Metrics analyzer (src/simulation/metrics_analyzer.py)

Python float arithmetic is modelled with exact rationals. -/

/-- The emotion-marker lexicon of `_measure_emotion_level`. -/
def emotion_markers : List String :=
  ["!", "!!", "!!!", "...", "????",
   "מאוד", "ממש", "נורא", "איום", "נפלא",
   "כואב", "קשה", "מפחיד", "מדהים", "מזעזע"]

/-- `total_markers`: sum over messages of `content.count(marker)` over all
markers. -/
def totalEmotionMarkers (conversation : List Turn) : Nat :=
  (conversation.map
    (fun m => (emotion_markers.map (fun mk => pyCount m.content mk)).sum)).sum

/-- `MetricsAnalyzer._measure_emotion_level`:
`min(1.0, total_markers / max(len(conversation), 1) / 2)`. -/
def measure_emotion_level (conversation : List Turn) : ℚ :=
  min 1 ((totalEmotionMarkers conversation : ℚ) / (max conversation.length 1 : ℚ) / 2)

/-- The topical keyword lexicon of `_measure_topic_consistency`. -/
def topic_keywords : List String :=
  ["עזה", "מלחמה", "חטופים", "חמאס",
   "צבא", "לחימה", "הפסקת אש", "עסקה",
   "ביטחון", "חיילים", "אוקטובר"]

/-- `MetricsAnalyzer._measure_topic_consistency`:
`on_topic_messages / max(len(conversation), 1)`. -/
def measure_topic_consistency (conversation : List Turn) : ℚ :=
  ((conversation.countP
      (fun m => topic_keywords.any (fun k => strContains m.content k)) : Nat) : ℚ) /
    (max conversation.length 1 : ℚ)

/-- The `transitions` count of `_calculate_back_and_forth_ratio`: adjacent
turn pairs with differing roles. -/
def countTransitions : List Turn → Nat
  | a :: b :: t => (if b.role = a.role then 0 else 1) + countTransitions (b :: t)
  | _ => 0

/-- `MetricsAnalyzer._calculate_back_and_forth_ratio`: 0 for fewer than two
turns, else `transitions / (len(conversation) - 1)`.  (Renamed from the
Python `_calculate_back_and_forth_ratio`.) -/
def calculate_back_and_forth_frac (conversation : List Turn) : ℚ :=
  if conversation.length < 2 then 0
  else (countTransitions conversation : ℚ) / ((conversation.length : ℚ) - 1)

/-! ## Concrete stub oracles used by scenario claims -/

/-- Stub whose provider never emits an ending phrase. -/
def stubNoEnd : SimOracle :=
  ⟨"מה דעתך על המצב?", "קשה לי עם כל המצב",
   fun _ _ => "אני שומע", fun _ _ => "כן", "טוב", fun _ => false⟩

/-- Stub whose agent text carries an ending phrase exactly when the prompt
history holds 22 turns, with every soft-ending draw failing: drives the
24-turn loop to a `natural_ending` detected at message 23. -/
def stubNatural24 : SimOracle :=
  ⟨"מה דעתך על המצב?", "קשה לי עם כל המצב",
   fun conv _ => if conv.length = 22 then "תודה על השיחה" else "אני שומע",
   fun _ _ => "כן", "טוב", fun _ => false⟩

/-- Stub provider that always returns a fixed natural-ending phrase. -/
def stubAlwaysEnd : SimOracle :=
  ⟨"מה דעתך על המצב?", "קשה לי עם כל המצב",
   fun _ _ => "תודה על השיחה", fun _ _ => "כן", "טוב", fun _ => false⟩

/-! ## Auxiliary predicates used in statements -/

/-- The other role. -/
def flipRole : Role → Role
  | .assistant => .user
  | .user => .assistant

/-- `rolesFrom r l` holds when the turn roles of `l` are exactly
`r, flipRole r, r, ...`: strict role alternation starting from `r`. -/
def rolesFrom : Role → List Turn → Bool
  | _, [] => true
  | r, t :: ts => decide (t.role = r) && rolesFrom (flipRole r) ts

/-- `adjPair c1 c2 l` holds when `c1` occurs immediately followed by `c2`
somewhere in `l` (used to refute substring occurrences). -/
def adjPair (c1 c2 : Char) : List Char → Bool
  | a :: b :: t => (decide (a = c1) && decide (b = c2)) || adjPair c1 c2 (b :: t)
  | _ => false

/-! ## Concrete rate-limiter states used by scenario claims -/

/-- A limiter state whose token window is full: default ceilings, no recent
requests, a token-usage entry of 4,000,000 tokens one second ago. -/
def sTokW : RLState := ⟨10, 1500, 4000000, [], 0, 1000, [(999, 4000000)]⟩

/-- A limiter state blocked on the per-minute request ceiling: ceiling 1,
one logged request one second ago. -/
def sReqW : RLState := ⟨1, 1500, 4000000, [999], 0, 1000, []⟩

/-- The C6 scenario state with a 1-per-minute ceiling: logged requests at
`T−61` and `T−1` for `T = 1000`. -/
def s6a : RLState := ⟨1, 1500, 4000000, [939, 999], 0, 1000, []⟩

/-- The C6 scenario state with a 2-per-minute ceiling. -/
def s6b : RLState := ⟨2, 1500, 4000000, [939, 999], 0, 1000, []⟩

/-! # Theorems -/

/-! ## Generic list helpers -/

theorem mem_of_getLast?' {α : Type} {l : List α} {a : α} (h : l.getLast? = some a) :
    a ∈ l := by
  obtain ⟨hne, rfl⟩ := List.mem_getLast?_eq_getLast (by simpa using h)
  exact List.getLast_mem hne

/-! ## Metrics analyzer lemmas (claim C10) -/

theorem countTransitions_le (l : List Turn) : countTransitions l ≤ l.length - 1 := by
  induction l with
  | nil => simp [countTransitions]
  | cons a t ih =>
    cases t with
    | nil => simp [countTransitions]
    | cons b t' =>
      unfold countTransitions
      simp only [List.length_cons] at *
      split <;> omega

/-- Claim C10: for every conversation (empty and single-turn lists included)
the normalized metrics are total and bounded: `emotion_level` and
`topic_consistency` lie in `[0, 1]` (the `max(len, 1)` denominators are
never zero), and the back-and-forth ratio is `0` for fewer than two turns
and otherwise lies in `[0, 1]`. -/
theorem claim_c10_metrics_bounded (conversation : List Turn) :
    0 ≤ measure_emotion_level conversation ∧ measure_emotion_level conversation ≤ 1 ∧
    0 ≤ measure_topic_consistency conversation ∧ measure_topic_consistency conversation ≤ 1 ∧
    (conversation.length < 2 → calculate_back_and_forth_frac conversation = 0) ∧
    0 ≤ calculate_back_and_forth_frac conversation ∧
    calculate_back_and_forth_frac conversation ≤ 1 := by
  have hmax : (0 : ℚ) < (max conversation.length 1 : ℚ) := by
    have h1 : 1 ≤ max conversation.length 1 := le_max_right _ _
    exact_mod_cast Nat.lt_of_lt_of_le Nat.zero_lt_one h1
  refine ⟨le_min (by norm_num) (by positivity), min_le_left _ _, by
      unfold measure_topic_consistency
      exact div_nonneg (Nat.cast_nonneg _) (le_of_lt hmax), ?_, ?_, ?_, ?_⟩
  · unfold measure_topic_consistency
    rw [div_le_one hmax]
    have hc := List.countP_le_length
      (l := conversation)
      (p := fun m => topic_keywords.any (fun k => strContains m.content k))
    have hm : conversation.length ≤ max conversation.length 1 := le_max_left _ _
    exact_mod_cast le_trans hc hm
  · intro h
    unfold calculate_back_and_forth_frac
    rw [if_pos h]
  · unfold calculate_back_and_forth_frac
    split
    · norm_num
    · rename_i hlen
      have h2 : 2 ≤ conversation.length := by omega
      have hden : (0 : ℚ) ≤ (conversation.length : ℚ) - 1 := by
        have : (2 : ℚ) ≤ (conversation.length : ℚ) := by exact_mod_cast h2
        linarith
      exact div_nonneg (Nat.cast_nonneg _) hden
  · unfold calculate_back_and_forth_frac
    split
    · norm_num
    · rename_i hlen
      have h2 : 2 ≤ conversation.length := by omega
      have hden : (0 : ℚ) < (conversation.length : ℚ) - 1 := by
        have : (2 : ℚ) ≤ (conversation.length : ℚ) := by exact_mod_cast h2
        linarith
      rw [div_le_one hden]
      have hct := countTransitions_le conversation
      have : ((countTransitions conversation : Nat) : ℚ) ≤
          ((conversation.length - 1 : Nat) : ℚ) := by exact_mod_cast hct
      have hcast : ((conversation.length - 1 : Nat) : ℚ) =
          (conversation.length : ℚ) - 1 := by
        have h1 : 1 ≤ conversation.length := by omega
        push_cast [h1]
        ring
      linarith [hcast ▸ this]

theorem claim_c10_witness :
    calculate_back_and_forth_frac [] = 0 ∧ measure_emotion_level [] ≤ 1 :=
  ⟨(claim_c10_metrics_bounded []).2.2.2.2.1 (by decide),
   (claim_c10_metrics_bounded []).2.1⟩

/-! ## Balance validation (claim C4) -/

/-- Claim C4, amended: `validate_balance` reports `True` whenever every
cell occurring in the successful results has between `run` and `run + 1`
conversations; and in the scenario with one cell at 0 completed
conversations and another at 10 it also reports `True` (not `False`),
because zero-count cells contribute no key to `combination_counts` and the
check only requires at most two distinct per-cell counts. -/
theorem claim_c4_amended :
    (∀ (successful : List SuccessEntry) (run : Nat),
        (∀ v ∈ cellCountValues successful, v = run ∨ v = run + 1) →
        (validate_balance successful).1 = true) ∧
    (validate_balance (List.replicate 10 ⟨"left_1", "control"⟩)).1 = true := by
  constructor
  · intro successful run h
    simp only [validate_balance, decide_eq_true_eq]
    have hnd : (cellCountValues successful).dedup.Nodup :=
      List.nodup_dedup (cellCountValues successful)
    have hsub : (cellCountValues successful).dedup.toFinset ⊆
        ({run, run + 1} : Finset Nat) := by
      intro v hv
      have hv2 : v ∈ cellCountValues successful :=
        (List.mem_dedup).mp (List.mem_toFinset.mp hv)
      rcases h v hv2 with h1 | h1 <;> simp [h1]
    calc (cellCountValues successful).dedup.length
        = (cellCountValues successful).dedup.toFinset.card :=
          (List.toFinset_card_of_nodup hnd).symm
      _ ≤ ({run, run + 1} : Finset Nat).card := Finset.card_le_card hsub
      _ ≤ 2 := (Finset.card_insert_le _ _).trans (by simp)
  · decide

theorem claim_c4_witness :
    (validate_balance [⟨"left_1", "control"⟩, ⟨"right_2", "control"⟩]).1 = true :=
  claim_c4_amended.1 _ 1 (by decide)

/-- Claim C4, counterexample: with ten completed conversations in the
`left × control` cell and zero in every other cell, `validate_balance`
returns `is_balanced = true` (the claim asserts `False`): the zero-count
cell is absent from the tally, leaving the single count value 10. -/
theorem claim_c4_counterexample :
    (validate_balance (List.replicate 10 ⟨"left_1", "control"⟩)).1 = true ∧
    (validate_balance (List.replicate 10 ⟨"left_1", "control"⟩)).2 = [10] := by
  decide

/-! ## Experiment-loop bookkeeping (claim C5) -/

theorem foldl_stepCombo (l : List ComboOutcome) : ∀ c : RunCounts,
    l.foldl stepCombo c =
      ⟨c.admitted + l.countP (fun x => decide (x ≠ ComboOutcome.waitRaises)),
       c.recorded + l.countP (fun x => decide (x = ComboOutcome.ok)),
       c.successful + l.countP (fun x => decide (x = ComboOutcome.ok)),
       c.failed + l.countP (fun x => decide (x ≠ ComboOutcome.ok))⟩ := by
  induction l with
  | nil =>
    intro c
    cases c
    simp
  | cons a t ih =>
    intro c
    rw [List.foldl_cons, ih]
    cases c
    cases a <;>
      simp [stepCombo, List.countP_cons, RunCounts.mk.injEq] <;> omega

/-- Claim C5, amended: `record_request` is called exactly once per
combination whose simulation and save complete successfully (one call per
`ok` outcome), while every iteration whose `wait_if_needed` returned counts
as admitted; an admitted request whose simulation or save raises is *not*
recorded, so recordings can fall short of admissions. -/
theorem claim_c5_amended (outcomes : List ComboOutcome) :
    (run_experiment_counts outcomes).recorded =
        outcomes.countP (fun x => decide (x = ComboOutcome.ok)) ∧
    (run_experiment_counts outcomes).admitted =
        outcomes.countP (fun x => decide (x ≠ ComboOutcome.waitRaises)) ∧
    (run_experiment_counts outcomes).recorded ≤
        (run_experiment_counts outcomes).admitted := by
  unfold run_experiment_counts
  rw [foldl_stepCombo]
  refine ⟨by simp, by simp, ?_⟩
  simp only [Nat.zero_add]
  refine List.countP_mono_left ?_
  intro a _ ha
  cases a <;> simp_all

/-- Claim C5, counterexample: a single combination that is admitted by the
rate limiter but whose simulation raises yields one admitted request and
zero `record_request` calls — the claim asserts exactly one recording per
admitted request regardless of failure. -/
theorem claim_c5_counterexample :
    (run_experiment_counts [ComboOutcome.simRaises]).admitted = 1 ∧
    (run_experiment_counts [ComboOutcome.simRaises]).recorded = 0 := by
  decide

/-! ## Sliding-window admission (claim C6) -/

/-- Claim C6, amended: with logged requests at `T−61` and `T−1`, the check
at `T` counts only the `T−1` request as in-window (a true sliding window);
under a 1-per-minute ceiling that single in-window request already meets
the ceiling, so the new request is *blocked* with a 59-second wait message,
and under a 2-per-minute ceiling it is allowed. -/
theorem claim_c6_amended :
    recentRequests s6a 1000 = [999] ∧
    can_make_request s6a 1000 500 = (s6a, false, "Rate limit: wait 59 seconds") ∧
    recentRequests s6b 1000 = [999] ∧
    can_make_request s6b 1000 500 = (s6b, true, "OK") := by
  decide

/-- Claim C6, counterexample: in the claimed scenario (1-per-minute
ceiling, logged requests at `T−61` and `T−1`), `can_make_request` at `T`
does count only the `T−1` request in-window, but it does *not* allow a new
request. -/
theorem claim_c6_counterexample :
    recentRequests s6a 1000 = [999] ∧ (can_make_request s6a 1000 500).2.1 = false := by
  decide

/-! ## Per-turn retry loop (claim C9) -/

theorem genRun_all_fail (fb : String) : ∀ l : List Attempt,
    (∀ a ∈ l, isSuccessA a = false) → (genRun fb l).1 = fb := by
  intro l
  induction l with
  | nil => intro _; rfl
  | cons a t ih =>
    intro h
    have ha := h a (by simp)
    cases t with
    | nil => cases a <;> simp_all [genRun, isSuccessA]
    | cons b t' =>
      have ht : ∀ x ∈ b :: t', isSuccessA x = false := fun x hx => h x (by simp [hx])
      cases a with
      | success s => simp [isSuccessA] at ha
      | failure q d => cases q <;> simp [genRun, ih ht]

theorem genRun_result (fb : String) : ∀ l : List Attempt,
    (genRun fb l).1 = fb ∨ ∃ t, Attempt.success t ∈ l ∧ (genRun fb l).1 = t := by
  intro l
  induction l with
  | nil => exact Or.inl rfl
  | cons a t ih =>
    cases t with
    | nil =>
      cases a with
      | success s => exact Or.inr ⟨s, by simp [genRun]⟩
      | failure q d => exact Or.inl rfl
    | cons b t' =>
      cases a with
      | success s => exact Or.inr ⟨s, by simp [genRun]⟩
      | failure q d =>
        cases q with
        | false =>
          rcases ih with h | ⟨u, hu, he⟩
          · exact Or.inl (by simpa [genRun] using h)
          · exact Or.inr ⟨u, by simp [hu], by simpa [genRun] using he⟩
        | true =>
          rcases ih with h | ⟨u, hu, he⟩
          · exact Or.inl (by simpa [genRun] using h)
          · exact Or.inr ⟨u, by simp [hu], by simpa [genRun] using he⟩

theorem genRun_sleeps (fb : String) : ∀ l : List Attempt, ∀ s ∈ (genRun fb l).2,
    ∃ d, Attempt.failure true d ∈ l ∧ s = extract_retry_delay d + 2 := by
  intro l
  induction l with
  | nil => intro s hs; simp [genRun] at hs
  | cons a t ih =>
    intro s hs
    cases t with
    | nil => cases a <;> simp [genRun] at hs
    | cons b t' =>
      cases a with
      | success u => simp [genRun] at hs
      | failure q d =>
        cases q with
        | false =>
          obtain ⟨d', hd', he⟩ := ih s (by simpa [genRun] using hs)
          exact ⟨d', by simp [hd'], he⟩
        | true =>
          simp only [genRun, List.mem_cons] at hs
          rcases hs with h | h
          · exact ⟨d, by simp, h⟩
          · obtain ⟨d', hd', he⟩ := ih s h
            exact ⟨d', by simp [hd'], he⟩

theorem genRun_sleeps_le (fb : String) : ∀ l : List Attempt,
    (genRun fb l).2.length ≤ l.length - 1 := by
  intro l
  induction l with
  | nil => simp [genRun]
  | cons a t ih =>
    cases t with
    | nil => cases a <;> simp [genRun]
    | cons b t' =>
      cases a with
      | success u => simp [genRun]
      | failure q d =>
        cases q <;> simp only [genRun, List.length_cons] <;>
          simp only [List.length_cons] at ih <;> omega

/-- Claim C9: a per-turn generation call (agent or subject) never raises
under any sequence of provider outcomes: with the 3-attempt budget it
consumes at most 3 attempts (hence at most 2 backoff sleeps), every sleep
is a quota-exhaustion backoff of the provider-advised (or 60-second
default) delay plus the 2-second buffer, the result is always a string
(the first success's text or the fallback), and when every attempt fails
the agent call returns the phase-appropriate canned response and the
subject call a persona typical phrase (or the canned response when the
persona has none). -/
theorem claim_c9_retry_safe (attempts : List Attempt) (phase : Phase)
    (tps : List String) (pick : Nat) (hlen : attempts.length = 3) :
    ((∀ a ∈ attempts, isSuccessA a = false) →
        (generate_agent_response attempts phase).1 = get_fallback_response phase .agent ∧
        (tps = [] →
          (generate_user_response attempts tps pick phase).1 =
            get_fallback_response phase .user) ∧
        (tps ≠ [] → (generate_user_response attempts tps pick phase).1 ∈ tps)) ∧
    ((generate_agent_response attempts phase).1 = get_fallback_response phase .agent ∨
        ∃ t, Attempt.success t ∈ attempts ∧ (generate_agent_response attempts phase).1 = t) ∧
    (∀ s ∈ (generate_agent_response attempts phase).2,
        ∃ d, Attempt.failure true d ∈ attempts ∧ s = extract_retry_delay d + 2) ∧
    (generate_agent_response attempts phase).2.length ≤ 2 := by
  refine ⟨?_, genRun_result _ _, genRun_sleeps _ _, ?_⟩
  · intro hfail
    refine ⟨genRun_all_fail _ _ hfail, ?_, ?_⟩
    · intro h
      subst h
      unfold generate_user_response
      simpa using genRun_all_fail _ _ hfail
    · intro hne
      unfold generate_user_response
      have hval := genRun_all_fail
        (tps.getD (pick % tps.length) "") attempts hfail
      have hempty : tps.isEmpty = false := by
        cases tps with
        | nil => exact absurd rfl hne
        | cons x xs => rfl
      rw [hempty]
      simp only [Bool.false_eq_true, if_false]
      rw [hval]
      have hlt : pick % tps.length < tps.length :=
        Nat.mod_lt _ (List.length_pos.mpr hne)
      rw [List.getD_eq_getElem _ _ hlt]
      exact List.getElem_mem hlt
  · have := genRun_sleeps_le (get_fallback_response phase .agent) attempts
    unfold generate_agent_response
    omega

theorem claim_c9_witness :
    (generate_agent_response
        [Attempt.failure true (some 30), Attempt.failure false none,
         Attempt.failure true none] Phase.active).1 =
      get_fallback_response Phase.active FbRole.agent :=
  ((claim_c9_retry_safe _ Phase.active ["נו, מה אתה אומר"] 0 (by decide)).1
      (by decide)).1

/-! ## Conversation-loop invariants (claims C2, C3, C7, C8) -/

theorem getLast?_drop' {α : Type} : ∀ (l : List α) (k : Nat), k < l.length →
    (l.drop k).getLast? = l.getLast? := by
  intro l
  induction l with
  | nil => intro k h; simp at h
  | cons a t ih =>
    intro k h
    cases k with
    | zero => rfl
    | succ k' =>
      simp only [List.drop_succ_cons]
      have ht : k' < t.length := by simpa using h
      rw [ih k' ht]
      cases t with
      | nil => simp at ht
      | cons b t' => rw [List.getLast?_cons_cons]

theorem hasEndingSignal_takeLast2 (l : List Turn) (t : Turn) :
    hasEndingSignal (takeLast2 (l ++ [t])) = msgHasEnding t.content := by
  unfold hasEndingSignal takeLast2
  rw [getLast?_drop' _ _ (by simp [List.length_append]; omega), List.getLast?_concat]

theorem simLoop_zero (o : SimOracle) (m : Nat) (conv : List Turn)
    (lr : Option (Option Reason)) (i : Nat) : simLoop o m 0 conv lr i = (conv, lr) :=
  rfl

theorem simLoop_succ (o : SimOracle) (m fuel : Nat) (conv : List Turn)
    (lr : Option (Option Reason)) (i : Nat) :
    simLoop o m (fuel + 1) conv lr i =
      if conv.length < m then
        if (simStepEnd o conv i).1 then
          if (simStepEnd o conv i).2 ≠ some Reason.hard_limit then
            (conv ++ [agentTurn o conv] ++ [closingTurn o], some (simStepEnd o conv i).2)
          else (conv ++ [agentTurn o conv], some (simStepEnd o conv i).2)
        else
          simLoop o m fuel
            (conv ++ [agentTurn o conv] ++ [userTurn o conv (conv ++ [agentTurn o conv])])
            (some (simStepEnd o conv i).2) (i + 1)
      else (conv, lr) :=
  rfl

theorem should_end_false_reason {c : Nat} {ls : List Turn} {sd : Bool}
    (h : (should_end c ls sd).1 = false) : should_end c ls sd = (false, none) := by
  unfold should_end at h ⊢
  by_cases h1 : 24 ≤ c
  · rw [if_pos h1] at h; simp at h
  · rw [if_neg h1] at h ⊢
    by_cases h2 : 18 ≤ c ∧ hasEndingSignal ls = true
    · rw [if_pos h2] at h; simp at h
    · rw [if_neg h2] at h ⊢
      by_cases h3 : 20 ≤ c ∧ sd = true
      · rw [if_pos h3] at h; simp at h
      · rw [if_neg h3]

theorem should_end_natural_ge {c : Nat} {ls : List Turn} {sd : Bool}
    (h : (should_end c ls sd).2 = some Reason.natural_ending) : 18 ≤ c := by
  unfold should_end at h
  by_cases h1 : 24 ≤ c
  · rw [if_pos h1] at h; simp at h
  · rw [if_neg h1] at h
    by_cases h2 : 18 ≤ c ∧ hasEndingSignal ls = true
    · exact h2.1
    · rw [if_neg h2] at h
      by_cases h3 : 20 ≤ c ∧ sd = true
      · rw [if_pos h3] at h; simp at h
      · rw [if_neg h3] at h; simp at h

theorem should_end_soft_ge {c : Nat} {ls : List Turn} {sd : Bool}
    (h : (should_end c ls sd).2 = some Reason.soft_ending) : 20 ≤ c := by
  unfold should_end at h
  by_cases h1 : 24 ≤ c
  · rw [if_pos h1] at h; simp at h
  · rw [if_neg h1] at h
    by_cases h2 : 18 ≤ c ∧ hasEndingSignal ls = true
    · rw [if_pos h2] at h; simp at h
    · rw [if_neg h2] at h
      by_cases h3 : 20 ≤ c ∧ sd = true
      · exact h3.1
      · rw [if_neg h3] at h; simp at h

theorem simLoop_length_le (o : SimOracle) (m : Nat) (hm : m % 2 = 0) :
    ∀ (fuel : Nat) (conv : List Turn) (lr : Option (Option Reason)) (i : Nat),
      conv.length % 2 = 0 → conv.length ≤ m →
      (simLoop o m fuel conv lr i).1.length ≤ m := by
  intro fuel
  induction fuel with
  | zero => intro conv lr i _ h2; simpa [simLoop_zero] using h2
  | succ fuel ih =>
    intro conv lr i h1 h2
    rw [simLoop_succ]
    split
    · rename_i hlt
      split
      · split
        · simp only [List.length_append, List.length_singleton]
          omega
        · simp only [List.length_append, List.length_singleton]
          omega
      · apply ih
        · simp only [List.length_append, List.length_singleton]
          omega
        · simp only [List.length_append, List.length_singleton]
          omega
    · exact h2

theorem simLoop_reason_ge (o : SimOracle) (m : Nat) :
    ∀ (fuel : Nat) (conv : List Turn) (lr : Option (Option Reason)) (i : Nat),
      lr = none ∨ lr = some none →
      ∀ r : Reason,
      (simLoop o m fuel conv lr i).2 = some (some r) →
      r = Reason.natural_ending ∨ r = Reason.soft_ending →
      19 ≤ (simLoop o m fuel conv lr i).1.length := by
  intro fuel
  induction fuel with
  | zero =>
    intro conv lr i hlr r h2 _
    rw [simLoop_zero] at h2
    rcases hlr with h | h <;> subst h <;> simp at h2
  | succ fuel ih =>
    intro conv lr i hlr r h2 hr
    rw [simLoop_succ] at h2 ⊢
    by_cases hlt : conv.length < m
    · rw [if_pos hlt] at h2 ⊢
      by_cases hse : (simStepEnd o conv i).1 = true
      · rw [if_pos hse] at h2 ⊢
        by_cases hh : (simStepEnd o conv i).2 ≠ some Reason.hard_limit
        · rw [if_pos hh] at h2 ⊢
          have h3 : (simStepEnd o conv i).2 = some r := Option.some.inj h2
          have h4 : (should_end (conv ++ [agentTurn o conv]).length
              (takeLast2 (conv ++ [agentTurn o conv])) (o.soft_draw i)).2 = some r := h3
          show 19 ≤ (conv ++ [agentTurn o conv] ++ [closingTurn o]).length
          simp only [List.length_append, List.length_singleton]
          rcases hr with hr | hr
          · subst hr
            have h5 := should_end_natural_ge h4
            simp only [List.length_append, List.length_singleton] at h5
            omega
          · subst hr
            have h5 := should_end_soft_ge h4
            simp only [List.length_append, List.length_singleton] at h5
            omega
        · rw [if_neg hh] at h2 ⊢
          push_neg at hh
          have h3 : (simStepEnd o conv i).2 = some r := Option.some.inj h2
          rw [hh] at h3
          have : Reason.hard_limit = r := Option.some.inj h3
          rcases hr with hr | hr <;> subst hr <;> exact absurd this.symm (by simp)
      · rw [if_neg hse] at h2 ⊢
        have hfalse : (simStepEnd o conv i).1 = false := by
          cases hb : (simStepEnd o conv i).1
          · rfl
          · exact absurd hb hse
        have hnone : (simStepEnd o conv i).2 = none :=
          congrArg Prod.snd (should_end_false_reason hfalse)
        exact ih _ _ _ (Or.inr (by rw [hnone])) r h2 hr
    · rw [if_neg hlt] at h2
      rcases hlr with h | h <;> subst h <;> simp at h2

theorem flipRole_flipRole (r : Role) : flipRole (flipRole r) = r := by
  cases r <;> rfl

theorem rolesFrom_single (r : Role) (t : Turn) :
    rolesFrom r [t] = decide (t.role = r) := by
  simp [rolesFrom]

theorem rolesFrom_append (l1 l2 : List Turn) : ∀ r : Role,
    rolesFrom r (l1 ++ l2) =
      (rolesFrom r l1 &&
        rolesFrom (if l1.length % 2 = 0 then r else flipRole r) l2) := by
  induction l1 with
  | nil => intro r; simp [rolesFrom]
  | cons t ts ih =>
    intro r
    simp only [List.cons_append, rolesFrom, List.length_cons, List.append_eq]
    rw [ih (flipRole r)]
    by_cases hp : ts.length % 2 = 0
    · have hp1 : ¬ (ts.length + 1) % 2 = 0 := by omega
      rw [if_pos hp, if_neg hp1, Bool.and_assoc]
    · have hp1 : (ts.length + 1) % 2 = 0 := by omega
      rw [if_neg hp, if_pos hp1, flipRole_flipRole, Bool.and_assoc]

theorem simLoop_alternating (o : SimOracle) (m : Nat) :
    ∀ (fuel : Nat) (conv : List Turn) (lr : Option (Option Reason)) (i : Nat),
      rolesFrom Role.assistant conv = true → conv.length % 2 = 0 →
      rolesFrom Role.assistant (simLoop o m fuel conv lr i).1 = true := by
  intro fuel
  induction fuel with
  | zero => intro conv lr i h1 _; simpa [simLoop_zero] using h1
  | succ fuel ih =>
    intro conv lr i h1 h2
    have hA : rolesFrom Role.assistant (conv ++ [agentTurn o conv]) = true := by
      rw [rolesFrom_append, if_pos h2, h1, rolesFrom_single]
      simp [agentTurn]
    have hlen1 : ¬ (conv ++ [agentTurn o conv]).length % 2 = 0 := by
      simp only [List.length_append, List.length_singleton]
      omega
    rw [simLoop_succ]
    split
    · split
      · split
        · rw [rolesFrom_append, if_neg hlen1, hA, rolesFrom_single]
          simp [closingTurn, flipRole]
        · exact hA
      · apply ih
        · rw [rolesFrom_append, if_neg hlen1, hA, rolesFrom_single]
          simp [userTurn, flipRole]
        · simp only [List.length_append, List.length_singleton]
          omega
    · exact h1

/-- Claim C8: for every completed conversation the turn roles strictly
alternate, starting from the agent opening.  In fact the trailing
acknowledgment turn is subject-side after an agent turn, so alternation
holds with *zero* same-role adjacencies — which implies the claim's
allowance of at most one trailing same-role turn on a non-hard-limit
ending. -/
theorem claim_c8_alternation (o : SimOracle) (max_messages : Nat) :
    rolesFrom Role.assistant (simulate_conversation o max_messages).1 = true := by
  have h0 : rolesFrom Role.assistant (initConv o) = true := by
    simp [initConv, rolesFrom, flipRole]
  exact simLoop_alternating o max_messages max_messages (initConv o) none 0 h0
    (by simp [initConv])

theorem simulate_fst (o : SimOracle) (m : Nat) :
    (simulate_conversation o m).1 = (simLoop o m m (initConv o) none 0).1 := by
  unfold simulate_conversation
  rfl

theorem sim_reason_natural {o : SimOracle} {m : Nat}
    (h : (simulate_conversation o m).2 = EndingReason.natural_ending) :
    (simLoop o m m (initConv o) none 0).2 = some (some Reason.natural_ending) := by
  unfold simulate_conversation at h
  rcases e : (simLoop o m m (initConv o) none 0).2 with _ | r2
  · rw [e] at h; simp at h
  · rcases r2 with _ | r3
    · rw [e] at h; simp at h
    · rcases r3 with _ | _ | _
      · rw [e] at h; simp at h
      · rfl
      · rw [e] at h; simp at h

theorem sim_reason_soft {o : SimOracle} {m : Nat}
    (h : (simulate_conversation o m).2 = EndingReason.soft_ending) :
    (simLoop o m m (initConv o) none 0).2 = some (some Reason.soft_ending) := by
  unfold simulate_conversation at h
  rcases e : (simLoop o m m (initConv o) none 0).2 with _ | r2
  · rw [e] at h; simp at h
  · rcases r2 with _ | r3
    · rw [e] at h; simp at h
    · rcases r3 with _ | _ | _
      · rw [e] at h; simp at h
      · rw [e] at h; simp at h
      · rfl

set_option maxHeartbeats 2000000 in
/-- Claim C2, amended: every conversation produced by
`simulate_conversation` at the default hard ceiling of 24 has at most 24
turns, and every `natural_ending`/`soft_ending` conversation has a turn
count of at least 18 (indeed at least 19 before the acknowledgment turn)
and at most 24 — the ceiling itself is attainable by a natural or soft
ending detected at message 23 plus the acknowledgment turn, so the bound
is `≤ 24`, not `< 24`. -/
theorem claim_c2_turn_bounds (o : SimOracle) :
    (simulate_conversation o 24).1.length ≤ 24 ∧
    ((simulate_conversation o 24).2 = EndingReason.natural_ending ∨
        (simulate_conversation o 24).2 = EndingReason.soft_ending →
      18 ≤ (simulate_conversation o 24).1.length ∧
      (simulate_conversation o 24).1.length ≤ 24) := by
  have hub : (simulate_conversation o 24).1.length ≤ 24 := by
    rw [simulate_fst]
    exact simLoop_length_le o 24 (by norm_num) 24 (initConv o) none 0
      (by simp [initConv]) (by simp [initConv])
  refine ⟨hub, ?_⟩
  intro h
  refine ⟨?_, hub⟩
  rw [simulate_fst]
  rcases h with h | h
  · have h19 := simLoop_reason_ge o 24 24 (initConv o) none 0 (Or.inl rfl)
      Reason.natural_ending (sim_reason_natural h) (Or.inl rfl)
    omega
  · have h19 := simLoop_reason_ge o 24 24 (initConv o) none 0 (Or.inl rfl)
      Reason.soft_ending (sim_reason_soft h) (Or.inr rfl)
    omega

set_option maxHeartbeats 2000000 in
theorem claim_c2_witness :
    18 ≤ (simulate_conversation stubNatural24 24).1.length ∧
    (simulate_conversation stubNatural24 24).1.length ≤ 24 :=
  (claim_c2_turn_bounds stubNatural24).2 (Or.inl (by decide))

set_option maxHeartbeats 2000000 in
/-- Claim C2, counterexample: with a stub whose agent text carries an
ending phrase exactly at the 23rd message, the conversation ends with
`natural_ending` at exactly 24 turns — equal to the hard ceiling, so the
claimed strict bound `turn count < 24` for natural endings fails. -/
theorem claim_c2_counterexample :
    (simulate_conversation stubNatural24 24).2 = EndingReason.natural_ending ∧
    (simulate_conversation stubNatural24 24).1.length = 24 := by
  decide

/-- Claim C3, amended: with the hard ceiling set to 4, `simulate_conversation`
terminates with exactly 4 turns for *every* provider stub, but the returned
`ending_reason` is Python `None`, not `hard_limit`: the loop exits on the
`while` condition, and the final `should_end` call (made at message count 3,
far below its hard-coded 24-message hard limit) left `reason = None`, which
the `'reason' in locals()` guard then copies into the metadata (shadowing
the intended `"max_messages"` fallback). -/
theorem claim_c3_ceiling_4 (o : SimOracle) :
    (simulate_conversation o 4).1.length = 4 ∧
    (simulate_conversation o 4).2 = EndingReason.none_reason :=
  ⟨rfl, rfl⟩

set_option maxHeartbeats 2000000 in
/-- Claim C3, counterexample: the no-ending-phrase stub at ceiling 4 yields
4 turns but `ending_reason` is `None`, not the claimed `hard_limit`. -/
theorem claim_c3_counterexample :
    (simulate_conversation stubNoEnd 4).1.length = 4 ∧
    (simulate_conversation stubNoEnd 4).2 = EndingReason.none_reason ∧
    (simulate_conversation stubNoEnd 4).2 ≠ EndingReason.hard_limit := by
  decide

theorem simStepEnd_early (o : SimOracle) (conv : List Turn) (i : Nat)
    (h : conv.length + 1 < 18) : simStepEnd o conv i = (false, none) := by
  unfold simStepEnd should_end
  simp only [List.length_append, List.length_singleton]
  rw [if_neg (by omega : ¬ 24 ≤ conv.length + 1)]
  rw [if_neg (fun hc => absurd hc.1 (by omega))]
  rw [if_neg (fun hc => absurd hc.1 (by omega))]

theorem simStepEnd_at18 (o : SimOracle) (conv : List Turn) (i : Nat)
    (hc : conv.length = 18)
    (hsig : msgHasEnding (o.agentGen conv (get_phase conv.length)) = true) :
    simStepEnd o conv i = (true, some Reason.natural_ending) := by
  unfold simStepEnd should_end
  have ht : hasEndingSignal (takeLast2 (conv ++ [agentTurn o conv])) = true := by
    rw [hasEndingSignal_takeLast2]
    simpa [agentTurn] using hsig
  simp only [List.length_append, List.length_singleton, hc]
  rw [if_neg (by omega : ¬ 24 ≤ 18 + 1), if_pos ⟨by omega, ht⟩]

theorem c7_loop (o : SimOracle)
    (hag : ∀ c p, msgHasEnding (o.agentGen c p) = true) :
    ∀ (fuel : Nat) (conv : List Turn) (lr : Option (Option Reason)) (i : Nat),
      conv.length % 2 = 0 → 2 ≤ conv.length → conv.length ≤ 18 →
      18 < conv.length + 2 * fuel →
      (simLoop o 24 fuel conv lr i).1.length = 20 ∧
      (simLoop o 24 fuel conv lr i).2 = some (some Reason.natural_ending) := by
  intro fuel
  induction fuel with
  | zero => intro conv lr i _ _ h3 h4; omega
  | succ fuel ih =>
    intro conv lr i h1 h2 h3 h4
    by_cases h18 : conv.length = 18
    · rw [simLoop_succ]
      rw [if_pos (by omega : conv.length < 24)]
      rw [simStepEnd_at18 o conv i h18 (hag _ _)]
      rw [if_pos rfl, if_pos (by decide :
        (true, some Reason.natural_ending).2 ≠ some Reason.hard_limit)]
      constructor
      · simp only [List.length_append, List.length_singleton]
        omega
      · rfl
    · have h16 : conv.length ≤ 16 := by omega
      rw [simLoop_succ]
      rw [if_pos (by omega : conv.length < 24)]
      rw [simStepEnd_early o conv i (by omega)]
      rw [if_neg (by simp : ¬ (false, (none : Option Reason)).1 = true)]
      apply ih
      · simp only [List.length_append, List.length_singleton]
        omega
      · simp only [List.length_append, List.length_singleton]
        omega
      · simp only [List.length_append, List.length_singleton]
        omega
      · simp only [List.length_append, List.length_singleton]
        omega

set_option maxHeartbeats 2000000 in
/-- Claim C7, amended: with a provider stub that always returns a fixed
natural-ending phrase, the simulation ends with
`ending_reason = natural_ending` at a turn count of at least the
configured minimum 18 and exceeding it by exactly 2 (final count 20): the
phrase is first eligible at message 19 (the first post-agent count `≥ 18`),
and the appended subject acknowledgment makes 20 — so "at most 1" over the
minimum is impossible, "at most 2" is exact. -/
theorem claim_c7_always_phrase (o : SimOracle)
    (hag : ∀ c p, msgHasEnding (o.agentGen c p) = true) :
    (simulate_conversation o 24).2 = EndingReason.natural_ending ∧
    (simulate_conversation o 24).1.length = 20 := by
  have h := c7_loop o hag 24 (initConv o) none 0 (by simp [initConv])
    (by simp [initConv]) (by simp [initConv]) (by simp [initConv])
  refine ⟨?_, by rw [simulate_fst]; exact h.1⟩
  unfold simulate_conversation
  rw [h.2]

set_option maxHeartbeats 2000000 in
theorem claim_c7_witness :
    (simulate_conversation stubAlwaysEnd 24).2 = EndingReason.natural_ending ∧
    (simulate_conversation stubAlwaysEnd 24).1.length = 20 :=
  claim_c7_always_phrase stubAlwaysEnd
    (fun _ _ => (by decide : msgHasEnding "תודה על השיחה" = true))

set_option maxHeartbeats 2000000 in
/-- Claim C7, counterexample: with the always-ending-phrase stub the
simulation ends with `natural_ending` at 20 turns — at least the minimum
18, but exceeding it by 2, not by at most 1 as claimed. -/
theorem claim_c7_counterexample :
    (simulate_conversation stubAlwaysEnd 24).2 = EndingReason.natural_ending ∧
    (simulate_conversation stubAlwaysEnd 24).1.length = 20 ∧
    ¬ (simulate_conversation stubAlwaysEnd 24).1.length ≤ 19 := by
  decide

/-! ## Rate-limiter wait/raise classification (claim C1)

To settle which blocked states sleep and which raise, we must reason about
the `"wait" in message.lower()` test on the three message formats, where
the interpolated numbers are arbitrary.  Any occurrence of `"wait"` puts a
`'w'` immediately before an `'a'`; `adjPair` tracks that and is refuted
segment by segment (fixed text by evaluation, digit segments because they
contain no `'w'`). -/

theorem mem_of_head?' {α : Type} {l : List α} {a : α} (h : l.head? = some a) :
    a ∈ l := by
  cases l with
  | nil => simp at h
  | cons x xs =>
    simp only [List.head?_cons, Option.some.injEq] at h
    subst h
    exact List.mem_cons_self _ _

theorem adjPair_of_substr {c1 c2 : Char} {r : List Char} : ∀ {l : List Char},
    isSubstrL (c1 :: c2 :: r) l = true → adjPair c1 c2 l = true := by
  intro l
  induction l with
  | nil => intro h; simp [isSubstrL, List.isEmpty] at h
  | cons a t ih =>
    intro h
    simp only [isSubstrL, Bool.or_eq_true] at h
    rcases h with h | h
    · cases t with
      | nil =>
        exfalso
        have h1 : (c1 == a && (c2 :: r).isPrefixOf ([] : List Char)) = true := h
        simp [List.isPrefixOf] at h1
      | cons b t' =>
        have h1 : (c1 == a && ((c2 == b) && r.isPrefixOf t')) = true := h
        simp only [Bool.and_eq_true, beq_iff_eq] at h1
        simp [adjPair, h1.1.symm, h1.2.1.symm]
    · cases t with
      | nil => simp [isSubstrL, List.isEmpty] at h
      | cons b t' =>
        simp [adjPair, ih h]

theorem adjPair_append {c1 c2 : Char} : ∀ (x y : List Char),
    adjPair c1 c2 (x ++ y) = true →
    adjPair c1 c2 x = true ∨ (x.getLast? = some c1 ∧ y.head? = some c2) ∨
      adjPair c1 c2 y = true := by
  intro x
  induction x with
  | nil => intro y h; exact Or.inr (Or.inr h)
  | cons a t ih =>
    intro y h
    cases t with
    | nil =>
      cases y with
      | nil => simp [adjPair] at h
      | cons b y' =>
        simp only [List.cons_append, List.nil_append] at h
        simp only [adjPair, Bool.or_eq_true, Bool.and_eq_true,
          decide_eq_true_eq] at h
        rcases h with ⟨h1, h2⟩ | h
        · exact Or.inr (Or.inl ⟨by simp [h1], by simp [h2]⟩)
        · exact Or.inr (Or.inr h)
    | cons b t' =>
      simp only [List.cons_append] at h
      simp only [adjPair, Bool.or_eq_true, Bool.and_eq_true,
        decide_eq_true_eq] at h
      rcases h with ⟨h1, h2⟩ | h
      · exact Or.inl (by simp [adjPair, h1, h2])
      · rcases ih y (by simpa [List.cons_append] using h) with h' | h' | h'
        · exact Or.inl (by simp [adjPair, h'])
        · exact Or.inr (Or.inl ⟨by rw [List.getLast?_cons_cons]; exact h'.1, h'.2⟩)
        · exact Or.inr (Or.inr h')

theorem adjPair_not_mem {c1 c2 : Char} : ∀ {l : List Char}, c1 ∉ l →
    adjPair c1 c2 l = false := by
  intro l
  induction l with
  | nil => intro _; rfl
  | cons a t ih =>
    intro h
    cases t with
    | nil => rfl
    | cons b t' =>
      have ha : ¬ a = c1 := fun e => h (by simp [e])
      have ht : c1 ∉ b :: t' := fun e => h (List.mem_cons_of_mem _ e)
      simp [adjPair, ha, ih ht]

theorem natReprGo_shape : ∀ (fuel n : Nat), ∀ c ∈ natReprGo fuel n,
    ∃ m, m < 10 ∧ c = Char.ofNat (48 + m) := by
  intro fuel
  induction fuel with
  | zero => intro n c hc; simp [natReprGo] at hc
  | succ fuel ih =>
    intro n c hc
    unfold natReprGo at hc
    split at hc
    · rename_i hn
      simp only [List.mem_singleton] at hc
      exact ⟨n, hn, hc⟩
    · rcases List.mem_append.mp hc with h1 | h1
      · exact ih _ c h1
      · simp only [List.mem_singleton] at h1
        exact ⟨n % 10, Nat.mod_lt _ (by norm_num), h1⟩

theorem digitChar_toLower {m : Nat} (h : m < 10) :
    (Char.ofNat (48 + m)).toLower = Char.ofNat (48 + m) := by
  interval_cases m <;> decide

theorem digitChar_ne_w {m : Nat} (h : m < 10) : Char.ofNat (48 + m) ≠ 'w' := by
  interval_cases m <;> decide

theorem digitChar_not_a {m : Nat} (h : m < 10) : Char.ofNat (48 + m) ≠ 'a' := by
  interval_cases m <;> decide

theorem natStr_map_toLower (n : Nat) :
    (natStr n).data.map Char.toLower = (natStr n).data := by
  have hall : ∀ c ∈ (natStr n).data, Char.toLower c = id c := by
    intro c hc
    obtain ⟨m, hm, rfl⟩ := natReprGo_shape (n + 1) n c hc
    exact digitChar_toLower hm
  rw [List.map_congr_left hall, List.map_id]

theorem w_not_mem_natStr (n : Nat) : 'w' ∉ (natStr n).data := by
  intro h
  obtain ⟨m, hm, he⟩ := natReprGo_shape (n + 1) n _ h
  exact digitChar_ne_w hm he.symm

theorem a_not_mem_natStr (n : Nat) : 'a' ∉ (natStr n).data := by
  intro h
  obtain ⟨m, hm, he⟩ := natReprGo_shape (n + 1) n _ h
  exact digitChar_not_a hm he.symm

theorem no_wait_of_no_adjPair {l : List Char} (h : adjPair 'w' 'a' l = false) :
    isSubstrL "wait".data l = false := by
  cases hs : isSubstrL "wait".data l
  · rfl
  · exfalso
    have h2 := adjPair_of_substr
      (show isSubstrL ('w' :: 'a' :: ['i', 't']) l = true from hs)
    rw [h] at h2
    exact Bool.noConfusion h2

theorem no_wait_daily (n : Nat) :
    strContains (lowerStr ("Daily limit reached (" ++ natStr n ++ " requests)"))
      "wait" = false := by
  apply no_wait_of_no_adjPair
  show adjPair 'w' 'a'
    (("Daily limit reached (" ++ natStr n ++ " requests)").data.map Char.toLower) = false
  rw [String.data_append, String.data_append, List.map_append, List.map_append,
    natStr_map_toLower]
  have hA : "Daily limit reached (".data.map Char.toLower =
      "daily limit reached (".data := by decide
  have hB : " requests)".data.map Char.toLower = " requests)".data := by decide
  rw [hA, hB]
  cases hp : adjPair 'w' 'a'
      ("daily limit reached (".data ++ (natStr n).data ++ " requests)".data)
  · rfl
  · exfalso
    rcases adjPair_append _ _ hp with h1 | h1 | h1
    · rcases adjPair_append _ _ h1 with h2 | h2 | h2
      · have hfix : adjPair 'w' 'a' "daily limit reached (".data = false := by decide
        rw [hfix] at h2
        exact Bool.noConfusion h2
      · have hlast : "daily limit reached (".data.getLast? = some '(' := by decide
        rw [hlast] at h2
        exact absurd h2.1 (by simp)
      · rw [adjPair_not_mem (w_not_mem_natStr n)] at h2
        exact Bool.noConfusion h2
    · have hhd : " requests)".data.head? = some ' ' := by decide
      rw [hhd] at h1
      exact absurd h1.2 (by simp)
    · have hfix : adjPair 'w' 'a' " requests)".data = false := by decide
      rw [hfix] at h1
      exact Bool.noConfusion h1

theorem no_wait_token (x y : Nat) :
    strContains (lowerStr ("Token limit would be exceeded (" ++ natStr x ++
      " > " ++ natStr y ++ ")")) "wait" = false := by
  apply no_wait_of_no_adjPair
  show adjPair 'w' 'a'
    (("Token limit would be exceeded (" ++ natStr x ++ " > " ++ natStr y ++ ")").data.map
      Char.toLower) = false
  rw [String.data_append, String.data_append, String.data_append, String.data_append,
    List.map_append, List.map_append, List.map_append, List.map_append,
    natStr_map_toLower, natStr_map_toLower]
  have hA : "Token limit would be exceeded (".data.map Char.toLower =
      "token limit would be exceeded (".data := by decide
  have hB : " > ".data.map Char.toLower = " > ".data := by decide
  have hC : ")".data.map Char.toLower = ")".data := by decide
  rw [hA, hB, hC]
  cases hp : adjPair 'w' 'a'
      ("token limit would be exceeded (".data ++ (natStr x).data ++ " > ".data ++
        (natStr y).data ++ ")".data)
  · rfl
  · exfalso
    rcases adjPair_append _ _ hp with h1 | h1 | h1
    · rcases adjPair_append _ _ h1 with h2 | h2 | h2
      · rcases adjPair_append _ _ h2 with h3 | h3 | h3
        · rcases adjPair_append _ _ h3 with h4 | h4 | h4
          · have hfix : adjPair 'w' 'a' "token limit would be exceeded (".data =
                false := by decide
            rw [hfix] at h4
            exact Bool.noConfusion h4
          · have hlast : "token limit would be exceeded (".data.getLast? =
                some '(' := by decide
            rw [hlast] at h4
            exact absurd h4.1 (by simp)
          · rw [adjPair_not_mem (w_not_mem_natStr x)] at h4
            exact Bool.noConfusion h4
        · have hhd2 : " > ".data.head? = some ' ' := by decide
          rw [hhd2] at h3
          exact absurd h3.2 (by simp)
        · have hfix : adjPair 'w' 'a' " > ".data = false := by decide
          rw [hfix] at h3
          exact Bool.noConfusion h3
      · have hmem := mem_of_head?' h2.2
        exact a_not_mem_natStr y hmem
      · rw [adjPair_not_mem (w_not_mem_natStr y)] at h2
        exact Bool.noConfusion h2
    · have hhd : ")".data.head? = some ')' := by decide
      rw [hhd] at h1
      exact absurd h1.2 (by simp)
    · have hfix : adjPair 'w' 'a' ")".data = false := by decide
      rw [hfix] at h1
      exact Bool.noConfusion h1

theorem wait_msg_contains : ∀ n : Nat, n < 61 →
    strContains (lowerStr ("Rate limit: wait " ++ intStr ((n : Int)) ++ " seconds"))
      "wait" = true := by
  decide

theorem wait_msg_extract : ∀ n : Nat, n < 61 →
    extractWaitSeconds ("Rate limit: wait " ++ intStr ((n : Int)) ++ " seconds") = n := by
  decide

theorem dailyResetStep_times (s : RLState) (now : Int) :
    (dailyResetStep s now).request_times = s.request_times := by
  unfold dailyResetStep
  split <;> rfl

theorem dailyResetStep_rpm (s : RLState) (now : Int) :
    (dailyResetStep s now).requests_per_minute = s.requests_per_minute := by
  unfold dailyResetStep
  split <;> rfl

theorem dailyResetStep_rpd (s : RLState) (now : Int) :
    (dailyResetStep s now).requests_per_day = s.requests_per_day := by
  unfold dailyResetStep
  split <;> rfl

theorem dailyResetStep_tpm (s : RLState) (now : Int) :
    (dailyResetStep s now).tokens_per_minute = s.tokens_per_minute := by
  unfold dailyResetStep
  split <;> rfl

theorem dailyResetStep_usage (s : RLState) (now : Int) :
    (dailyResetStep s now).token_usage = s.token_usage := by
  unfold dailyResetStep
  split <;> rfl

theorem can_make_request_eq (s : RLState) (now : Int) (est : Nat) :
    can_make_request s now est =
      if (dailyResetStep s now).daily_request_count ≥
          (dailyResetStep s now).requests_per_day then
        (dailyResetStep s now, false,
          "Daily limit reached (" ++ natStr (dailyResetStep s now).requests_per_day ++
            " requests)")
      else if (recentRequests (dailyResetStep s now) now).length ≥
          (dailyResetStep s now).requests_per_minute then
        (dailyResetStep s now, false,
          "Rate limit: wait " ++
            intStr (60 - (now - (recentRequests (dailyResetStep s now) now).headD 0)) ++
            " seconds")
      else if recentTokens (dailyResetStep s now) now + est >
          (dailyResetStep s now).tokens_per_minute then
        (dailyResetStep s now, false,
          "Token limit would be exceeded (" ++
            natStr (recentTokens (dailyResetStep s now) now + est) ++ " > " ++
            natStr (dailyResetStep s now).tokens_per_minute ++ ")")
      else (dailyResetStep s now, true, "OK") :=
  rfl

theorem wait_step_eq (s : RLState) (now : Int) (est : Nat) :
    wait_step s now est =
      if (can_make_request s now est).2.1 then
        WaitAction.proceed (can_make_request s now est).1
      else if strContains (lowerStr (can_make_request s now est).2.2) "wait" then
        WaitAction.sleepFor (extractWaitSeconds (can_make_request s now est).2.2 + 1)
          (can_make_request s now est).1
      else
        WaitAction.raiseErr ("Rate limit error: " ++ (can_make_request s now est).2.2)
          (can_make_request s now est).1 :=
  rfl

/-- Claim C1, amended: when `wait_if_needed`'s admission check is blocked,
the behaviour splits by *message wording*, which separates the request-rate
block from the other two: on a per-minute request-rate block the loop
sleeps until the oldest in-window request exits the 60-second window plus
the 1-second safety margin and re-checks; on a daily block *or a
per-minute token-rate block* it raises a terminal, non-retryable error,
because only the request-rate message contains the word "wait". -/
theorem claim_c1_wait_step (s : RLState) (now : Int) (est : Nat)
    (hts : ∀ t ∈ s.request_times, t ≤ now)
    (hsorted : s.request_times.Sorted (· ≤ ·)) :
    ((dailyResetStep s now).daily_request_count ≥ s.requests_per_day →
      wait_step s now est =
        WaitAction.raiseErr
          ("Rate limit error: Daily limit reached (" ++ natStr s.requests_per_day ++
            " requests)")
          (dailyResetStep s now)) ∧
    ((dailyResetStep s now).daily_request_count < s.requests_per_day →
      1 ≤ s.requests_per_minute →
      s.requests_per_minute ≤ (recentRequests s now).length →
      ∃ t0 rest, recentRequests s now = t0 :: rest ∧
        (∀ t ∈ recentRequests s now, t0 ≤ t) ∧
        wait_step s now est =
          WaitAction.sleepFor ((60 - (now - t0)).toNat + 1) (dailyResetStep s now) ∧
        now + (60 - (now - t0)) = t0 + 60) ∧
    ((dailyResetStep s now).daily_request_count < s.requests_per_day →
      (recentRequests s now).length < s.requests_per_minute →
      s.tokens_per_minute < recentTokens s now + est →
      wait_step s now est =
        WaitAction.raiseErr
          ("Rate limit error: Token limit would be exceeded (" ++
            natStr (recentTokens s now + est) ++ " > " ++
            natStr s.tokens_per_minute ++ ")")
          (dailyResetStep s now)) := by
  have erecent : recentRequests (dailyResetStep s now) now = recentRequests s now := by
    unfold recentRequests
    rw [dailyResetStep_times]
  have etok : recentTokens (dailyResetStep s now) now = recentTokens s now := by
    unfold recentTokens
    rw [dailyResetStep_usage]
  refine ⟨?_, ?_, ?_⟩
  · intro hd
    have hcan : can_make_request s now est =
        (dailyResetStep s now, false,
          "Daily limit reached (" ++ natStr s.requests_per_day ++ " requests)") := by
      rw [can_make_request_eq, dailyResetStep_rpd,
        if_pos hd]
    rw [wait_step_eq, hcan]
    rw [if_neg (by simp : ¬ ((dailyResetStep s now, false,
      "Daily limit reached (" ++ natStr s.requests_per_day ++ " requests)").2.1 = true))]
    rw [if_neg (by rw [no_wait_daily]; simp)]
    rfl
  · intro hd hrpm hlen
    obtain ⟨t0, rest, hrec⟩ : ∃ t0 rest, recentRequests s now = t0 :: rest := by
      cases hc : recentRequests s now with
      | nil => rw [hc] at hlen; simp at hlen; omega
      | cons a b => exact ⟨a, b, rfl⟩
    have ht0mem : t0 ∈ recentRequests s now := by
      rw [hrec]; exact List.mem_cons_self _ _
    have ht0f := List.mem_filter.mp ht0mem
    have ht0win : now - 60 < t0 := by
      have := of_decide_eq_true ht0f.2
      omega
    have ht0now : t0 ≤ now := hts t0 ht0f.1
    have hw1 : (1 : Int) ≤ 60 - (now - t0) := by omega
    have hw60 : 60 - (now - t0) ≤ (60 : Int) := by omega
    have hwnat : (60 - (now - t0)).toNat < 61 := by omega
    have hofnat : (((60 - (now - t0)).toNat : Nat) : Int) = 60 - (now - t0) := by
      omega
    have hsortedf : (recentRequests s now).Sorted (· ≤ ·) :=
      List.Pairwise.filter _ hsorted
    have hmin : ∀ t ∈ recentRequests s now, t0 ≤ t := by
      rw [hrec] at hsortedf ⊢
      intro t ht
      rcases List.mem_cons.mp ht with h | h
      · exact le_of_eq h.symm
      · exact (List.sorted_cons.mp hsortedf).1 t h
    have hcan : can_make_request s now est =
        (dailyResetStep s now, false,
          "Rate limit: wait " ++ intStr (60 - (now - t0)) ++ " seconds") := by
      rw [can_make_request_eq, dailyResetStep_rpd, if_neg (by omega), erecent,
        dailyResetStep_rpm, if_pos hlen, hrec]
      rfl
    refine ⟨t0, rest, hrec, hmin, ?_, by omega⟩
    rw [wait_step_eq, hcan]
    rw [if_neg (by simp : ¬ ((dailyResetStep s now, false,
      "Rate limit: wait " ++ intStr (60 - (now - t0)) ++ " seconds").2.1 = true))]
    rw [if_pos (by
      show strContains (lowerStr ("Rate limit: wait " ++ intStr (60 - (now - t0)) ++
        " seconds")) "wait" = true
      rw [← hofnat]
      exact wait_msg_contains _ hwnat)]
    have hex : extractWaitSeconds
        ("Rate limit: wait " ++ intStr (60 - (now - t0)) ++ " seconds") =
        (60 - (now - t0)).toNat := by
      rw [← hofnat]
      exact wait_msg_extract _ hwnat
    rw [hex]
  · intro hd hlen htok
    have hcan : can_make_request s now est =
        (dailyResetStep s now, false,
          "Token limit would be exceeded (" ++ natStr (recentTokens s now + est) ++
            " > " ++ natStr s.tokens_per_minute ++ ")") := by
      rw [can_make_request_eq, dailyResetStep_rpd, if_neg (by omega), erecent,
        dailyResetStep_rpm, if_neg (by omega), etok, dailyResetStep_tpm,
        if_pos (by omega)]
    rw [wait_step_eq, hcan]
    rw [if_neg (by simp : ¬ ((dailyResetStep s now, false,
      "Token limit would be exceeded (" ++ natStr (recentTokens s now + est) ++
        " > " ++ natStr s.tokens_per_minute ++ ")").2.1 = true))]
    rw [if_neg (by rw [no_wait_token]; simp)]
    rfl

theorem claim_c1_witness :
    ∃ t0 rest, recentRequests sReqW 1000 = t0 :: rest ∧
      (∀ t ∈ recentRequests sReqW 1000, t0 ≤ t) ∧
      wait_step sReqW 1000 500 =
        WaitAction.sleepFor ((60 - (1000 - t0)).toNat + 1) (dailyResetStep sReqW 1000) ∧
      1000 + (60 - (1000 - t0)) = t0 + 60 :=
  (claim_c1_wait_step sReqW 1000 500 (by decide) (by decide)).2.1
    (by decide) (by decide) (by decide)

/-- Claim C1, counterexample: a state blocked only by the per-minute
*token* ceiling (window holds 4,000,000 tokens, estimate 500) makes
`wait_if_needed` raise a terminal error — the token message does not
contain "wait" — whereas the claim asserts that any per-minute block
(request-rate or token-rate) sleeps and re-checks. -/
theorem claim_c1_counterexample :
    (can_make_request sTokW 1000 500).2.1 = false ∧
    (can_make_request sTokW 1000 500).2.2 =
      "Token limit would be exceeded (4000500 > 4000000)" ∧
    wait_step sTokW 1000 500 =
      WaitAction.raiseErr
        "Rate limit error: Token limit would be exceeded (4000500 > 4000000)" sTokW := by
  decide

end PolChat
